import Mathlib

/-!
Verification of the powermate event library: a shallow embedding of the
binary event codec, the LED bit-packing helper, the file event source's
read loop, the fan-out event queue, and the gesture-classification state
machine, together with theorems settling the specification's claims.

Machine integers are modelled as `Nat`/`Int` with explicit wrapping where
the source wraps; fallible operations return `Option`.
-/

/-! ## Binary event codec (`Event.raw` / `Event.fromraw`)

The source packs events with `struct.pack('llHHi', ...)`: two native-long
signed fields, two unsigned 16-bit fields, one signed 32-bit field, all
little-endian.  The native-long byte width is platform dependent; it is
kept as a parameter `lw` (8 on the common 64-bit layout).  `struct.pack`
rejects out-of-range values, hence `raw` returns an `Option`;
`struct.unpack` rejects a buffer whose length is not exactly the record
size, hence `fromraw` returns an `Option`.
-/

/-- Little-endian byte encoding of a natural number into `w` bytes. -/
def encBytes : Nat → Nat → List Nat
  | 0, _ => []
  | w + 1, u => u % 256 :: encBytes w (u / 256)

/-- Little-endian byte decoding of a natural number. -/
def decBytes : List Nat → Nat
  | [] => 0
  | b :: bs => b + 256 * decBytes bs

/-- Two's-complement encoding of a signed integer into `w` bytes. -/
def encSigned (w : Nat) (v : Int) : List Nat :=
  encBytes w (v % ((2 : Int) ^ (8 * w))).toNat

/-- Two's-complement decoding of `w`-byte data. -/
def decSigned (w : Nat) (bs : List Nat) : Int :=
  let u := decBytes bs
  if u < 2 ^ (8 * w - 1) then (u : Int) else (u : Int) - (2 : Int) ^ (8 * w)

/-- A raw input event, mirroring `Event(tv_sec, tv_usec, type, code, value)`. -/
structure Event where
  tv_sec : Int
  tv_usec : Int
  type : Nat
  code : Nat
  value : Int
deriving DecidableEq

/-- `struct.calcsize('llHHi')` with long width `lw`: two longs, two
unsigned shorts, one signed 32-bit int (24 bytes when `lw = 8`). -/
def EVENT_SIZE (lw : Nat) : Nat := lw + lw + 2 + 2 + 4

/-- The range checks `struct.pack('llHHi', ...)` performs on its fields. -/
def Event.inRange (lw : Nat) (e : Event) : Prop :=
  -((2 : Int) ^ (8 * lw - 1)) ≤ e.tv_sec ∧ e.tv_sec < (2 : Int) ^ (8 * lw - 1) ∧
  -((2 : Int) ^ (8 * lw - 1)) ≤ e.tv_usec ∧ e.tv_usec < (2 : Int) ^ (8 * lw - 1) ∧
  e.type < 2 ^ 16 ∧ e.code < 2 ^ 16 ∧
  -((2 : Int) ^ 31) ≤ e.value ∧ e.value < (2 : Int) ^ 31

instance (lw : Nat) (e : Event) : Decidable (e.inRange lw) := by
  unfold Event.inRange; infer_instance

/-- `Event.raw`: `struct.pack(EVENT_FORMAT, tv_sec, tv_usec, type, code, value)`. -/
def Event.raw (lw : Nat) (e : Event) : Option (List Nat) :=
  if e.inRange lw then
    some (encSigned lw e.tv_sec ++ (encSigned lw e.tv_usec ++
      (encBytes 2 e.type ++ (encBytes 2 e.code ++ encSigned 4 e.value))))
  else none

/-- `Event.fromraw`: `struct.unpack(EVENT_FORMAT, data)` into an `Event`. -/
def Event.fromraw (lw : Nat) (data : List Nat) : Option Event :=
  if data.length = EVENT_SIZE lw then
    some ⟨decSigned lw (data.take lw),
          decSigned lw ((data.drop lw).take lw),
          decBytes (((data.drop lw).drop lw).take 2),
          decBytes ((((data.drop lw).drop lw).drop 2).take 2),
          decSigned 4 (((((data.drop lw).drop lw).drop 2).drop 2).take 4)⟩
  else none

theorem length_encBytes (w u : Nat) : (encBytes w u).length = w := by
  induction w generalizing u with
  | zero => rfl
  | succ w ih => simp [encBytes, ih]

theorem decBytes_encBytes (w u : Nat) (h : u < 256 ^ w) :
    decBytes (encBytes w u) = u := by
  induction w generalizing u with
  | zero => simp [Nat.pow_zero] at h; simp [h, encBytes, decBytes]
  | succ w ih =>
    have hdiv : u / 256 < 256 ^ w := by
      rw [Nat.div_lt_iff_lt_mul (by norm_num)]
      calc u < 256 ^ (w + 1) := h
        _ = 256 ^ w * 256 := by ring
    simp only [encBytes, decBytes, ih _ hdiv]
    omega

theorem length_encSigned (w : Nat) (v : Int) : (encSigned w v).length = w :=
  length_encBytes _ _

theorem decSigned_encSigned (w : Nat) (hw : 1 ≤ w) (v : Int)
    (h1 : -((2 : Int) ^ (8 * w - 1)) ≤ v) (h2 : v < (2 : Int) ^ (8 * w - 1)) :
    decSigned w (encSigned w v) = v := by
  have hsplit : 8 * w = (8 * w - 1) + 1 := by omega
  have hBA : (2 : Int) ^ (8 * w) = 2 ^ (8 * w - 1) * 2 := by
    conv_lhs => rw [hsplit]
    rw [pow_succ]
  have hNBA : (2 : Nat) ^ (8 * w) = 2 ^ (8 * w - 1) * 2 := by
    conv_lhs => rw [hsplit]
    rw [pow_succ]
  have hA : (0 : Int) < 2 ^ (8 * w - 1) := by positivity
  have h256 : (256 : Nat) ^ w = 2 ^ (8 * w) := by
    rw [show (256 : Nat) = 2 ^ 8 from rfl, ← Nat.pow_mul]
  have hcastB : (((2 : Nat) ^ (8 * w) : Nat) : Int) = (2 : Int) ^ (8 * w) := by
    push_cast; ring
  have hcastA : (((2 : Nat) ^ (8 * w - 1) : Nat) : Int) = (2 : Int) ^ (8 * w - 1) := by
    push_cast; ring
  by_cases hv : 0 ≤ v
  · have hmod : v % (2 : Int) ^ (8 * w) = v :=
      Int.emod_eq_of_lt hv (by omega)
    have htn : (v.toNat : Int) = v := Int.toNat_of_nonneg hv
    have hlt : v.toNat < 256 ^ w := by rw [h256]; omega
    have hltA : v.toNat < 2 ^ (8 * w - 1) := by omega
    unfold encSigned decSigned
    rw [hmod, decBytes_encBytes _ _ hlt, if_pos hltA, htn]
  · have h0 : 0 ≤ v + (2 : Int) ^ (8 * w) := by omega
    have hltB : v + (2 : Int) ^ (8 * w) < (2 : Int) ^ (8 * w) := by omega
    have hmod : v % (2 : Int) ^ (8 * w) = v + (2 : Int) ^ (8 * w) := by
      have := Int.add_mul_emod_self_left (a := v) (b := (2 : Int) ^ (8 * w)) (c := 1)
      rw [mul_one] at this
      rw [← this, Int.emod_eq_of_lt h0 hltB]
    have htn : ((v + (2 : Int) ^ (8 * w)).toNat : Int) = v + (2 : Int) ^ (8 * w) :=
      Int.toNat_of_nonneg h0
    have hlt : (v + (2 : Int) ^ (8 * w)).toNat < 256 ^ w := by rw [h256]; omega
    have hgeA : ¬ ((v + (2 : Int) ^ (8 * w)).toNat < 2 ^ (8 * w - 1)) := by omega
    unfold encSigned decSigned
    rw [hmod, decBytes_encBytes _ _ hlt, if_neg hgeA]
    omega

/-- C1: for every `Event` whose fields are within their declared widths,
decoding the bytes produced by encoding the event yields the original
event: `fromraw (raw e) = e`. -/
theorem decode_encode_roundtrip (lw : Nat) (e : Event) (hw : 1 ≤ lw)
    (h : e.inRange lw) :
    (Event.raw lw e).bind (Event.fromraw lw) = some e := by
  obtain ⟨sec, usec, ty, cd, vl⟩ := e
  obtain ⟨hs1, hs2, hu1, hu2, ht, hc, hv1, hv2⟩ := h
  simp only at hs1 hs2 hu1 hu2 ht hc hv1 hv2
  rw [Event.raw, if_pos ⟨hs1, hs2, hu1, hu2, ht, hc, hv1, hv2⟩, Option.some_bind]
  dsimp only
  have hlen : (encSigned lw sec ++ (encSigned lw usec ++ (encBytes 2 ty ++
      (encBytes 2 cd ++ encSigned 4 vl)))).length = EVENT_SIZE lw := by
    simp [length_encSigned, length_encBytes, EVENT_SIZE]
    omega
  rw [Event.fromraw, if_pos hlen]
  rw [List.take_left' (length_encSigned lw sec),
      List.drop_left' (length_encSigned lw sec),
      List.take_left' (length_encSigned lw usec),
      List.drop_left' (length_encSigned lw usec),
      List.take_left' (length_encBytes 2 ty),
      List.drop_left' (length_encBytes 2 ty),
      List.take_left' (length_encBytes 2 cd),
      List.drop_left' (length_encBytes 2 cd),
      List.take_of_length_le (le_of_eq (length_encSigned 4 vl))]
  have h16 : (256 : Nat) ^ 2 = 2 ^ 16 := by norm_num
  rw [decSigned_encSigned lw hw sec hs1 hs2,
      decSigned_encSigned lw hw usec hu1 hu2,
      decSigned_encSigned 4 (by norm_num) vl (by exact_mod_cast hv1) (by exact_mod_cast hv2),
      decBytes_encBytes 2 ty (by omega),
      decBytes_encBytes 2 cd (by omega)]

/-- Witness for C1 at a concrete event with the 64-bit long layout. -/
theorem decode_encode_roundtrip_witness :
    (Event.raw 8 ⟨-1, 123456, 1, 0, -42⟩).bind (Event.fromraw 8) =
      some ⟨-1, 123456, 1, 0, -42⟩ :=
  decode_encode_roundtrip 8 ⟨-1, 123456, 1, 0, -42⟩ (by norm_num) (by decide)

/-! ## LED command builder (`LedEvent`)

`LedEvent.value` packs the LED sub-fields into the 32-bit `value` carried
by an `EV_MSC`/`MSC_PULSELED` event.  The source defines only the packing
direction; the claimed inverse is modelled from the spec below.  The
sub-fields are modelled as `Nat` (the spec's in-range domain). -/

def MAX_BRIGHTNESS : Nat := 255
def MAX_PULSE_SPEED : Nat := 255

structure LedEvent where
  brightness : Nat
  speed : Nat
  pulse_type : Nat
  asleep : Nat
  awake : Nat
deriving DecidableEq

/-- `LedEvent.value`: `brightness | (speed << 8) | (pulse_type << 17) |
(asleep << 19) | (awake << 20)`. -/
def LedEvent.value (l : LedEvent) : Nat :=
  l.brightness ||| l.speed <<< 8 ||| l.pulse_type <<< 17 |||
    l.asleep <<< 19 ||| l.awake <<< 20

/-- Modelled from the spec: the source has no unpacking function, only the
packing property `LedEvent.value`; the spec describes `unpack(uint32)` as
the exact inverse over the defined bit ranges (brightness bits 0-7, speed
bits 8-15, pulseType bits 17-18, asleep bit 19, awake bit 20). -/
def LedEvent.unpack (v : Nat) : LedEvent :=
  ⟨v &&& 255, v >>> 8 &&& 255, v >>> 17 &&& 3, v >>> 19 &&& 1, v >>> 20 &&& 1⟩

/-- Truncation toward zero, as Python's `int()` applied to a number. -/
def pyIntTrunc (q : ℚ) : Int := if 0 ≤ q then ⌊q⌋ else ⌈q⌉

/-- `LedEvent.percent`: the brightness stored by the constructor
`cls(brightness=int(percent * MAX_BRIGHTNESS))`.  The float product is
modelled exactly over `ℚ`. -/
def LedEvent.percent (frac : ℚ) : Int := pyIntTrunc (frac * (MAX_BRIGHTNESS : ℚ))

/-- Bitwise-or with a shifted value is addition when the ranges are disjoint. -/
theorem lor_mul_pow (k : Nat) : ∀ x z : Nat, x < 2 ^ k → x ||| z * 2 ^ k = x + z * 2 ^ k := by
  induction k with
  | zero =>
    intro x z hx
    interval_cases x
    simp
  | succ k ih =>
    intro x z hx
    have hbit : Nat.bit x.bodd x.div2 = x := Nat.bit_decomp x
    have hz : z * 2 ^ (k + 1) = Nat.bit false (z * 2 ^ k) := by
      rw [Nat.bit_val]
      simp [pow_succ]
      ring
    have hm : x.div2 < 2 ^ k := by
      rw [Nat.div2_val]
      omega
    calc x ||| z * 2 ^ (k + 1)
        = Nat.bit x.bodd x.div2 ||| Nat.bit false (z * 2 ^ k) := by rw [hbit, hz]
      _ = Nat.bit (x.bodd || false) (x.div2 ||| z * 2 ^ k) := Nat.lor_bit _ _ _ _
      _ = Nat.bit x.bodd (x.div2 + z * 2 ^ k) := by rw [Bool.or_false, ih _ _ hm]
      _ = x + z * 2 ^ (k + 1) := by
          have h2 : z * 2 ^ (k + 1) = 2 * (z * 2 ^ k) := by ring
          have hx2 : 2 * x.div2 + x.bodd.toNat = x := by
            rw [← Nat.bit_val, Nat.bit_decomp]
          rw [Nat.bit_val, h2, Nat.div2_val]
          rw [Nat.div2_val] at hx2
          omega

/-- The packed LED value as a plain sum, for in-range sub-fields. -/
theorem value_eq_add (l : LedEvent) (hb : l.brightness < 256) (hs : l.speed < 256)
    (hp : l.pulse_type < 4) (ha : l.asleep < 2) (hw : l.awake < 2) :
    l.value = l.brightness + l.speed * 2 ^ 8 + l.pulse_type * 2 ^ 17 +
      l.asleep * 2 ^ 19 + l.awake * 2 ^ 20 := by
  obtain ⟨b, s, p, a, w⟩ := l
  simp only at hb hs hp ha hw
  simp only [LedEvent.value, Nat.shiftLeft_eq]
  rw [lor_mul_pow 8 b s (by omega),
      lor_mul_pow 17 _ p (by norm_num; omega),
      lor_mul_pow 19 _ a (by norm_num; omega),
      lor_mul_pow 20 _ w (by norm_num; omega)]

/-- C7: for every `LedEvent` whose sub-fields are in range, `value` packs
exactly `brightness | (speed << 8) | (pulseType << 17) | (asleep << 19) |
(awake << 20)`, and the spec-modelled `unpack` inverts it:
`unpack (value l) = l`. -/
theorem unpack_value_roundtrip (l : LedEvent) (hb : l.brightness < 256) (hs : l.speed < 256)
    (hp : l.pulse_type < 4) (ha : l.asleep < 2) (hw : l.awake < 2) :
    l.value = (l.brightness ||| l.speed <<< 8 ||| l.pulse_type <<< 17 |||
      l.asleep <<< 19 ||| l.awake <<< 20) ∧
    LedEvent.unpack l.value = l := by
  refine ⟨rfl, ?_⟩
  rw [value_eq_add l hb hs hp ha hw]
  obtain ⟨b, s, p, a, w⟩ := l
  simp only at hb hs hp ha hw
  have m255 : ∀ x : Nat, x &&& 255 = x % 256 := fun x => Nat.and_pow_two_sub_one_eq_mod x 8
  have m3 : ∀ x : Nat, x &&& 3 = x % 4 := fun x => Nat.and_pow_two_sub_one_eq_mod x 2
  have m1 : ∀ x : Nat, x &&& 1 = x % 2 := fun x => Nat.and_pow_two_sub_one_eq_mod x 1
  simp only [LedEvent.unpack, Nat.shiftRight_eq_div_pow, m255, m3, m1, LedEvent.mk.injEq]
  norm_num
  omega

/-- Witness for C7 at the `pulse` preset with brightness 200. -/
theorem unpack_value_roundtrip_witness :
    (LedEvent.value ⟨200, 255, 2, 1, 1⟩ = (200 ||| 255 <<< 8 ||| 2 <<< 17 |||
      1 <<< 19 ||| 1 <<< 20) ∧
    LedEvent.unpack (LedEvent.value ⟨200, 255, 2, 1, 1⟩) = ⟨200, 255, 2, 1, 1⟩) :=
  unpack_value_roundtrip ⟨200, 255, 2, 1, 1⟩ (by norm_num) (by norm_num)
    (by norm_num) (by norm_num) (by norm_num)

/-! ## Fan-out distribution queue (`EventQueue`)

Each listener owns a bounded `queue.Queue`; `EventQueue.watch` offers each
source event to every registered queue with `put_nowait`, swallowing
`queue.Full`.  A queue is a `List` with its front at the head (FIFO: `get`
drains from the front). -/

def MAX_QUEUE_SIZE : Nat := 5

/-- `queue.Queue(cap).put_nowait(e)`: fails with `queue.Full` when the
queue is bounded (`0 < cap`, unbounded otherwise) and at capacity,
otherwise appends at the back. -/
def put_nowait (cap : Nat) (q : List α) (e : α) : Except Unit (List α) :=
  if 0 < cap ∧ cap ≤ q.length then .error () else .ok (q ++ [e])

/-- The per-queue body of `EventQueue.watch`:
`try: q.put_nowait(event) except queue.Full: pass`. -/
def offer (cap : Nat) (q : List α) (e : α) : List α :=
  match put_nowait cap q e with
  | .ok q1 => q1
  | .error _ => q

/-- One iteration of `EventQueue.watch`'s outer loop: one decoded source
event offered to every registered listener queue. -/
def watch_step (cap : Nat) (qs : List (List α)) (e : α) : List (List α) :=
  qs.map (fun q => offer cap q e)

theorem offer_eq (cap : Nat) (hcap : 0 < cap) (q : List α) (e : α) :
    offer cap q e = if q.length < cap then q ++ [e] else q := by
  unfold offer put_nowait
  by_cases h : cap ≤ q.length
  · rw [if_pos ⟨hcap, h⟩, if_neg (by omega)]
  · rw [if_neg (by omega), if_pos (by omega)]

theorem foldl_offer_take (cap : Nat) (hcap : 0 < cap) :
    ∀ (es q : List α), q.length ≤ cap →
      List.foldl (offer cap) q es = q ++ es.take (cap - q.length) := by
  intro es
  induction es with
  | nil => intro q _; simp
  | cons e es ih =>
    intro q hq
    by_cases hfull : q.length = cap
    · have hoff : offer cap q e = q := by
        rw [offer_eq cap hcap, if_neg (by omega)]
      simp [List.foldl, hoff, ih q hq, hfull]
    · have hlt : q.length < cap := by omega
      have hoff : offer cap q e = q ++ [e] := by
        rw [offer_eq cap hcap, if_pos hlt]
      have hlen : (q ++ [e]).length ≤ cap := by simp; omega
      rw [List.foldl, hoff, ih (q ++ [e]) hlen]
      have hsucc : cap - q.length = (cap - (q ++ [e]).length) + 1 := by simp; omega
      rw [hsucc, List.take_succ_cons, List.append_assoc, List.singleton_append]

/-! ## Device event source read loop (`FileEventSource.__iter__`)

The generator keeps a byte buffer `data`, reads up to `EVENT_SIZE` bytes
per iteration of its `while True` loop, and yields one decoded event when
at least `EVENT_SIZE` bytes are buffered.  The loop body has no exit: the
generator's iteration can only end through an exception escaping from
`read`.  The underlying stream is a finite byte list; once it is
exhausted, `read` either returns the empty bytes object (ordinary
end-of-file) or raises an I/O error (`errAtEof`). -/

structure IterState where
  remaining : List Nat
  errAtEof : Bool
  data : List Nat
deriving DecidableEq

inductive IterStep where
  | yields : Option Event → IterState → IterStep
  | continues : IterState → IterStep
  | raises : IterStep
deriving DecidableEq

/-- One pass of the `while True` body, with the 64-bit long layout
(`EVENT_SIZE 8 = 24`). -/
def iterStep (s : IterState) : IterStep :=
  if s.remaining = [] ∧ s.errAtEof then .raises
  else
    let data := s.data ++ s.remaining.take (EVENT_SIZE 8)
    let rem := s.remaining.drop (EVENT_SIZE 8)
    if EVENT_SIZE 8 ≤ data.length then
      .yields (Event.fromraw 8 (data.take (EVENT_SIZE 8)))
        ⟨rem, s.errAtEof, data.drop (EVENT_SIZE 8)⟩
    else .continues ⟨rem, s.errAtEof, data⟩

/-- Run `n` iterations of the read loop: `some (s', events)` when the
generator is still looping in state `s'` having yielded `events`; `none`
when an exception escaped and the iteration terminated. -/
def iterRun : Nat → IterState → Option (IterState × List (Option Event))
  | 0, s => some (s, [])
  | n + 1, s =>
    match iterStep s with
    | .raises => none
    | .continues s1 => iterRun n s1
    | .yields e s1 => (iterRun n s1).map (fun p => (p.1, e :: p.2))

/-! ## Gesture-classification state machine (`PowerMateEventHandler`)

`handle_event` mutates the handler state and either returns the result of
exactly one gesture callback (`HandleResult.ok (some g)`), returns without
invoking one (`.ok none`, the suppressed rotated release), or raises
`EventNotImplemented` (`.exc`).  Gesture callbacks are abstracted as the
`Gesture` they classify (the claims assume handlers that implement them).
The press time `tv_sec * 10**3 + tv_usec * 10**-3` is float arithmetic in
the source; it is modelled exactly over `ℚ`. -/

def PUSH : Nat := 0x01
def ROTATE : Nat := 0x02

structure PMState where
  rotated : Bool
  button : Int
  button_time : ℚ
  long_threshold : ℚ
deriving DecidableEq

inductive Gesture where
  | short_press : Gesture
  | long_press : Gesture
  | rotate : Int → Gesture
  | push_rotate : Int → Gesture
deriving DecidableEq

inductive HandleResult where
  | ok : Option Gesture → HandleResult
  | exc : HandleResult
deriving DecidableEq

/-- `event.tv_sec * 10 ** 3 + event.tv_usec * 10 ** -3`, in milliseconds. -/
def eventTimeMs (e : Event) : ℚ :=
  (e.tv_sec : ℚ) * 10 ^ 3 + (e.tv_usec : ℚ) * ((10 : ℚ) ^ 3)⁻¹

/-- `PowerMateEventHandler.handle_event`.  On a button-down the source
updates `button`, `__button_time` and `__rotated` and then falls through
to `raise EventNotImplemented('unknown')` (there is no `return` in that
branch), so the updated state is paired with `.exc`. -/
def handle_event (s : PMState) (e : Event) : PMState × HandleResult :=
  if e.type = PUSH then
    let time := eventTimeMs e
    let s1 : PMState := { s with button := e.value }
    if e.value ≠ 0 then
      ({ s1 with button_time := time, rotated := false }, .exc)
    else
      if s1.rotated then (s1, .ok none)
      else if time - s1.button_time > s1.long_threshold then (s1, .ok (some .long_press))
      else (s1, .ok (some .short_press))
  else if e.type = ROTATE then
    if s.button ≠ 0 then ({ s with rotated := true }, .ok (some (.push_rotate e.value)))
    else (s, .ok (some (.rotate e.value)))
  else (s, .exc)

/-- `EventHandler.handle_events`: the per-listener loop.  Its
`try/except` catches `EventNotImplemented` (and logs any other exception)
and continues with the next event, so every event is processed; the
returned trace records each event's outcome. -/
def handle_events (s : PMState) : List Event → PMState × List HandleResult
  | [] => (s, [])
  | e :: es =>
    let p := handle_event s e
    let r := handle_events p.1 es
    (r.1, p.2 :: r.2)

theorem push_ne_rotate : PUSH ≠ ROTATE := by decide

theorem handle_event_down (s : PMState) (e : Event) (ht : e.type = PUSH)
    (hv : e.value ≠ 0) :
    handle_event s e =
      (⟨false, e.value, eventTimeMs e, s.long_threshold⟩, HandleResult.exc) := by
  unfold handle_event
  rw [if_pos ht, if_pos hv]

theorem handle_event_release (s : PMState) (e : Event) (ht : e.type = PUSH)
    (hv : e.value = 0) :
    handle_event s e = ({ s with button := e.value },
      if s.rotated then HandleResult.ok none
      else HandleResult.ok (some (if eventTimeMs e - s.button_time > s.long_threshold
        then Gesture.long_press else Gesture.short_press))) := by
  unfold handle_event
  rw [if_pos ht, if_neg (by simp [hv])]
  by_cases hrot : s.rotated
  · simp [hrot]
  · simp only [eq_self_iff_true, hrot, if_false, Bool.false_eq_true]
    by_cases hthr : eventTimeMs e - s.button_time > s.long_threshold
    · rw [if_pos hthr, if_pos hthr]
    · rw [if_neg hthr, if_neg hthr]

theorem handle_event_rotation (s : PMState) (e : Event) (ht : e.type = ROTATE) :
    handle_event s e =
      if s.button ≠ 0 then
        ({ s with rotated := true }, HandleResult.ok (some (Gesture.push_rotate e.value)))
      else (s, HandleResult.ok (some (Gesture.rotate e.value))) := by
  unfold handle_event
  rw [if_neg (by rw [ht]; exact fun h => push_ne_rotate h.symm), if_pos ht]

theorem handle_events_length (s : PMState) (es : List Event) :
    (handle_events s es).2.length = es.length := by
  induction es generalizing s with
  | nil => rfl
  | cons e es ih => simp [handle_events, ih]

/-- C2 counterexample: with threshold 1000 and press-start 0, a release at
exactly 1000 ms (elapsed time equal to the threshold) invokes
`short_press`, not `long_press` as the claim states (the source tests
`time - button_time > threshold`, strictly). -/
theorem release_at_threshold_is_short :
    eventTimeMs ⟨1, 0, PUSH, 0, 0⟩ - (0 : ℚ) = (1000 : ℚ) ∧
    (handle_event ⟨false, 1, 0, 1000⟩ ⟨1, 0, PUSH, 0, 0⟩).2 =
      HandleResult.ok (some Gesture.short_press) ∧
    Gesture.short_press ≠ Gesture.long_press := by
  have ht : eventTimeMs ⟨1, 0, PUSH, 0, 0⟩ = (1000 : ℚ) := by
    norm_num [eventTimeMs]
  refine ⟨by rw [ht]; norm_num, ?_, by decide⟩
  rw [handle_event_release ⟨false, 1, 0, 1000⟩ ⟨1, 0, PUSH, 0, 0⟩ rfl rfl]
  norm_num [ht]

/-- C2 (amended): in the `Pressed` state (no rotation since the press), a
button signal with value zero invokes exactly one gesture callback:
`long_press` when the elapsed time strictly exceeds the threshold, else
`short_press` (elapsed time exactly equal to the threshold yields
`short_press`). -/
theorem release_classification (s : PMState) (e : Event)
    (hrot : s.rotated = false) (ht : e.type = PUSH) (hv : e.value = 0) :
    (handle_event s e).2 = HandleResult.ok (some
      (if eventTimeMs e - s.button_time > s.long_threshold
        then Gesture.long_press else Gesture.short_press)) := by
  rw [handle_event_release s e ht hv]
  simp [hrot]

/-- Witness for C2 (amended): release 500 ms after the press with
threshold 1000. -/
theorem release_classification_witness :
    (handle_event ⟨false, 1, 0, 1000⟩ ⟨0, 500000, PUSH, 0, 0⟩).2 =
      HandleResult.ok (some
        (if eventTimeMs ⟨0, 500000, PUSH, 0, 0⟩ - (0 : ℚ) > 1000
          then Gesture.long_press else Gesture.short_press)) :=
  release_classification ⟨false, 1, 0, 1000⟩ ⟨0, 500000, PUSH, 0, 0⟩ rfl rfl rfl

/-- C3: for a button-down, one rotation, button-up sequence: the rotation
invokes exactly one `push_rotate` with its delta and moves the machine to
`PressedRotated` (`rotated` set, button still held); the release invokes
neither `short_press` nor `long_press` (it returns without a callback);
the down event itself invokes no gesture callback. -/
theorem push_rotate_release_sequence (s : PMState) (e1 e2 e3 : Event)
    (h1t : e1.type = PUSH) (h1v : e1.value ≠ 0)
    (h2t : e2.type = ROTATE) (h3t : e3.type = PUSH) (h3v : e3.value = 0) :
    (handle_event s e1).2 = HandleResult.exc ∧
    (handle_event (handle_event s e1).1 e2).2 =
      HandleResult.ok (some (Gesture.push_rotate e2.value)) ∧
    (handle_event (handle_event s e1).1 e2).1.rotated = true ∧
    (handle_event (handle_event s e1).1 e2).1.button ≠ 0 ∧
    (handle_event (handle_event (handle_event s e1).1 e2).1 e3).2 =
      HandleResult.ok none := by
  have hd := handle_event_down s e1 h1t h1v
  rw [hd]
  dsimp only
  have hr := handle_event_rotation ⟨false, e1.value, eventTimeMs e1, s.long_threshold⟩ e2 h2t
  rw [if_pos h1v] at hr
  rw [hr]
  dsimp only
  refine ⟨rfl, rfl, rfl, h1v, ?_⟩
  rw [handle_event_release ⟨true, e1.value, eventTimeMs e1, s.long_threshold⟩ e3 h3t h3v]
  simp

/-- Witness for C3: press, rotate by -3, release. -/
theorem push_rotate_release_sequence_witness :
    (handle_event ⟨false, 0, 0, 1000⟩ ⟨0, 0, PUSH, 0, 1⟩).2 = HandleResult.exc ∧
    (handle_event (handle_event ⟨false, 0, 0, 1000⟩ ⟨0, 0, PUSH, 0, 1⟩).1
        ⟨0, 200000, ROTATE, 0, -3⟩).2 =
      HandleResult.ok (some (Gesture.push_rotate (-3))) ∧
    (handle_event (handle_event ⟨false, 0, 0, 1000⟩ ⟨0, 0, PUSH, 0, 1⟩).1
        ⟨0, 200000, ROTATE, 0, -3⟩).1.rotated = true ∧
    (handle_event (handle_event ⟨false, 0, 0, 1000⟩ ⟨0, 0, PUSH, 0, 1⟩).1
        ⟨0, 200000, ROTATE, 0, -3⟩).1.button ≠ 0 ∧
    (handle_event (handle_event (handle_event ⟨false, 0, 0, 1000⟩ ⟨0, 0, PUSH, 0, 1⟩).1
        ⟨0, 200000, ROTATE, 0, -3⟩).1 ⟨0, 400000, PUSH, 0, 0⟩).2 =
      HandleResult.ok none :=
  push_rotate_release_sequence ⟨false, 0, 0, 1000⟩ ⟨0, 0, PUSH, 0, 1⟩
    ⟨0, 200000, ROTATE, 0, -3⟩ ⟨0, 400000, PUSH, 0, 0⟩ rfl (by decide) rfl rfl (by decide)

/-- C6 counterexample: a button-down event has type `PUSH`, yet
`handle_event` raises `EventNotImplemented` on it (the depressed branch
falls through to the `raise`), so "fails iff the type is neither PUSH nor
ROTATE" is false. -/
theorem button_down_breaks_iff :
    ¬ (((handle_event ⟨false, 0, 0, 1000⟩ ⟨0, 0, PUSH, 0, 1⟩).2 = HandleResult.exc) ↔
      ((⟨0, 0, PUSH, 0, 1⟩ : Event).type ≠ PUSH ∧
        (⟨0, 0, PUSH, 0, 1⟩ : Event).type ≠ ROTATE)) := by
  rw [handle_event_down ⟨false, 0, 0, 1000⟩ ⟨0, 0, PUSH, 0, 1⟩ rfl (by decide)]
  simp

/-- C6 (amended): a classification step raises `EventNotImplemented` iff
the event's type is neither `PUSH` nor `ROTATE`, or the event is a
button-down (`PUSH` with nonzero value); and the per-listener loop
(`handle_events`) catches the failure and still processes every following
event (one trace entry per input event). -/
theorem unsupported_event_characterization (s : PMState) (e : Event) (es : List Event) :
    ((handle_event s e).2 = HandleResult.exc ↔
      (e.type ≠ PUSH ∧ e.type ≠ ROTATE) ∨ (e.type = PUSH ∧ e.value ≠ 0)) ∧
    (handle_events s es).2.length = es.length := by
  refine ⟨?_, handle_events_length s es⟩
  by_cases ht : e.type = PUSH
  · by_cases hv : e.value = 0
    · rw [handle_event_release s e ht hv]
      constructor
      · intro hx
        revert hx
        split
        · simp
        · split <;> simp
      · rintro (⟨hne, _⟩ | ⟨_, hvne⟩)
        · exact absurd ht hne
        · exact absurd hv hvne
    · rw [handle_event_down s e ht hv]
      simp [ht, hv]
  · by_cases hr : e.type = ROTATE
    · rw [handle_event_rotation s e hr]
      constructor
      · intro hx
        revert hx
        split <;> simp
      · rintro (⟨_, hne⟩ | ⟨hp, _⟩)
        · exact absurd hr hne
        · exact absurd hp ht
    · unfold handle_event
      rw [if_neg ht, if_neg hr]
      simp [ht, hr]

/-- C10: a button-down records the press-start time, stores the button
value and clears the rotated flag, pairing those updates with the
exceptional exit (`EventNotImplemented`), and the updated state persists:
a subsequent release is classified against the recorded press-start
time. -/
theorem button_down_state_recorded (s : PMState) (e1 e2 : Event)
    (h1t : e1.type = PUSH) (h1v : e1.value ≠ 0)
    (h2t : e2.type = PUSH) (h2v : e2.value = 0) :
    handle_event s e1 =
      (⟨false, e1.value, eventTimeMs e1, s.long_threshold⟩, HandleResult.exc) ∧
    (handle_event (handle_event s e1).1 e2).2 = HandleResult.ok (some
      (if eventTimeMs e2 - eventTimeMs e1 > s.long_threshold
        then Gesture.long_press else Gesture.short_press)) := by
  have hd := handle_event_down s e1 h1t h1v
  refine ⟨hd, ?_⟩
  rw [hd]
  dsimp only
  rw [handle_event_release ⟨false, e1.value, eventTimeMs e1, s.long_threshold⟩ e2 h2t h2v]
  simp

/-- Witness for C10: press with value 2 from a stale state, release 2 s
later. -/
theorem button_down_state_recorded_witness :
    handle_event ⟨true, 5, 77, 1000⟩ ⟨0, 0, PUSH, 0, 2⟩ =
      (⟨false, 2, eventTimeMs ⟨0, 0, PUSH, 0, 2⟩, 1000⟩, HandleResult.exc) ∧
    (handle_event (handle_event ⟨true, 5, 77, 1000⟩ ⟨0, 0, PUSH, 0, 2⟩).1
        ⟨2, 0, PUSH, 0, 0⟩).2 = HandleResult.ok (some
      (if eventTimeMs ⟨2, 0, PUSH, 0, 0⟩ - eventTimeMs ⟨0, 0, PUSH, 0, 2⟩ > (1000 : ℚ)
        then Gesture.long_press else Gesture.short_press)) :=
  button_down_state_recorded ⟨true, 5, 77, 1000⟩ ⟨0, 0, PUSH, 0, 2⟩
    ⟨2, 0, PUSH, 0, 0⟩ rfl (by decide) rfl rfl

/-- C4 counterexample: ten events dispatched to a stalled listener with an
empty capacity-5 queue leave the five oldest events in its buffer; the
five most recent are the ones dropped. -/
theorem stalled_listener_keeps_oldest :
    List.foldl (offer 5) ([] : List Int) [0, 1, 2, 3, 4, 5, 6, 7, 8, 9] =
      [0, 1, 2, 3, 4] ∧
    ([0, 1, 2, 3, 4] : List Int) ≠ [5, 6, 7, 8, 9] := by
  refine ⟨rfl, by decide⟩

/-- C4 (amended): a listener whose capacity-5 queue is empty when it
stalls drains exactly the 5 *oldest* of the dispatched events, in
dispatch order; events arriving while its buffer is saturated (the newer
ones) are the ones dropped. -/
theorem stalled_listener_drains_oldest (es : List Int) :
    List.foldl (offer 5) [] es = es.take 5 := by
  have h := foldl_offer_take 5 (by norm_num) es [] (by simp)
  simpa using h

/-- C5: one dispatch step of `EventQueue.watch` over the registered
queues: a queue at capacity keeps its buffered contents unchanged and the
incoming (newest) event is discarded for it, the `queue.Full` signal is
swallowed rather than surfaced, and every queue below capacity receives
the event appended in FIFO order — each listener independently of the
others. -/
theorem watch_step_per_listener (cap : Nat) (hcap : 0 < cap)
    (qs : List (List Int)) (e : Int) (i : Nat) :
    (watch_step cap qs e)[i]? =
      (qs[i]?).map (fun q => if q.length < cap then q ++ [e] else q) := by
  unfold watch_step
  rw [List.getElem?_map]
  cases hq : qs[i]? with
  | none => rfl
  | some q => simp [offer_eq cap hcap]

/-- Witness for C5: a full queue keeps `[1,2,3,4,5]` and drops event 7,
while the second queue `[9]` receives it. -/
theorem watch_step_per_listener_witness :
    ((watch_step 5 [[1, 2, 3, 4, 5], [9]] (7 : Int))[0]? =
      (([[1, 2, 3, 4, 5], [9]] : List (List Int))[0]?).map
        (fun q => if q.length < 5 then q ++ [7] else q)) ∧
    ((watch_step 5 [[1, 2, 3, 4, 5], [9]] (7 : Int))[1]? =
      (([[1, 2, 3, 4, 5], [9]] : List (List Int))[1]?).map
        (fun q => if q.length < 5 then q ++ [7] else q)) :=
  ⟨watch_step_per_listener 5 (by norm_num) [[1, 2, 3, 4, 5], [9]] 7 0,
   watch_step_per_listener 5 (by norm_num) [[1, 2, 3, 4, 5], [9]] 7 1⟩

/-- C8 counterexample: the source computes `int(percent * 255)`, which
truncates: `percent(0.5)` yields brightness 127, not the claimed
`round(0.5 * 255) = 128`. -/
theorem percent_half_is_127 :
    LedEvent.percent (1 / 2) = 127 ∧ (127 : Int) ≠ 128 := by
  constructor
  · unfold LedEvent.percent pyIntTrunc MAX_BRIGHTNESS
    rw [if_pos (by norm_num)]
    rw [show ((1 : ℚ) / 2 * ((255 : Nat) : ℚ)) = 255 / 2 by norm_num]
    norm_num [Int.floor_eq_iff]
  · decide

/-- C8 (amended): the brightness-from-fraction constructor computes
`brightness = int(fraction * 255)`, truncating toward zero with no
clamping: `percent(0.5)` yields 127, `percent(1.0)` yields 255, and
`percent(2.0)` yields 510 (beyond the 0-255 range). -/
theorem percent_truncates_without_clamp :
    LedEvent.percent (1 / 2) = 127 ∧ LedEvent.percent 1 = 255 ∧
    LedEvent.percent 2 = 510 ∧
    ∀ q : ℚ, LedEvent.percent q = pyIntTrunc (q * 255) := by
  refine ⟨?_, ?_, ?_, fun q => by norm_num [LedEvent.percent, MAX_BRIGHTNESS]⟩
  · unfold LedEvent.percent pyIntTrunc MAX_BRIGHTNESS
    rw [if_pos (by norm_num)]
    rw [show ((1 : ℚ) / 2 * ((255 : Nat) : ℚ)) = 255 / 2 by norm_num]
    norm_num [Int.floor_eq_iff]
  · unfold LedEvent.percent pyIntTrunc MAX_BRIGHTNESS
    rw [if_pos (by norm_num)]
    rw [show ((1 : ℚ) * ((255 : Nat) : ℚ)) = 255 by norm_num]
    norm_num [Int.floor_eq_iff]
  · unfold LedEvent.percent pyIntTrunc MAX_BRIGHTNESS
    rw [if_pos (by norm_num)]
    rw [show ((2 : ℚ) * ((255 : Nat) : ℚ)) = 510 by norm_num]
    norm_num [Int.floor_eq_iff]

/-- C9 counterexample: with the underlying byte stream exhausted (ordinary
end-of-file, reads return empty bytes), the read loop is still running
after 100 iterations and has yielded nothing — the event sequence does
not terminate at end-of-stream, contrary to the claim. -/
theorem read_loop_spins_at_eof :
    iterRun 100 ⟨[], false, []⟩ = some (⟨[], false, []⟩, []) := by decide

/-- C9 (amended): once the stream is exhausted with less than one full
record buffered, a read error terminates the iteration (the exception
propagates), but plain end-of-stream does not: the loop keeps running
forever, yielding no further events. -/
theorem read_loop_ends_only_on_error (s : IterState) (n : Nat)
    (hrem : s.remaining = []) (hlen : s.data.length < EVENT_SIZE 8) :
    (s.errAtEof = true → iterRun (n + 1) s = none) ∧
    (s.errAtEof = false → iterRun n s = some (s, [])) := by
  have hraise : s.errAtEof = true → iterStep s = IterStep.raises := by
    intro herr
    unfold iterStep
    rw [if_pos ⟨hrem, herr⟩]
  have hcont : s.errAtEof = false → iterStep s = IterStep.continues s := by
    intro herr
    obtain ⟨rem, err, data⟩ := s
    simp only at hrem hlen herr
    subst hrem
    subst herr
    unfold iterStep
    simp only [List.take_nil, List.append_nil, List.drop_nil]
    rw [if_neg (by simp)]
    rw [if_neg (by unfold EVENT_SIZE at hlen ⊢; omega)]
  constructor
  · intro herr
    simp [iterRun, hraise herr]
  · intro herr
    have h1 := hcont herr
    induction n with
    | zero => rfl
    | succ n ih => simp [iterRun, h1, ih]

/-- Witness for C9 (amended): an exhausted stream whose reads raise an
I/O error terminates within one step. -/
theorem read_loop_ends_only_on_error_witness :
    ((⟨[], true, []⟩ : IterState).errAtEof = true →
      iterRun 4 ⟨[], true, []⟩ = none) ∧
    ((⟨[], true, []⟩ : IterState).errAtEof = false →
      iterRun 3 ⟨[], true, []⟩ = some (⟨[], true, []⟩, [])) :=
  read_loop_ends_only_on_error ⟨[], true, []⟩ 3 rfl (by decide)
